import Mathlib

set_option linter.unusedVariables false

/-!
Verification of the core logic of the Intelligent Document Q&A System
(document chunker, two-tier memory store, query pipeline, vector-store
records, feedback learning loop) as a shallow embedding in Lean.

Conventions of the embedding:
* Python strings are Lean `String`s (a wrapper around `List Char`); Python
  `len` on a string is `String.length`.  Helpers that the Python standard
  library provides (`str.strip`, `re.split`, list slicing) are modelled
  character-by-character below (`pyStrip`, `paraSplitF`, `sentSplitF`,
  `pyTail`).  Python `\s` is modelled by the six ASCII whitespace
  characters it always contains.
* Python floats are modelled as exact rationals (`ℚ`).
* Python dicts keyed by strings are association lists (`alookup` /
  `aupdate`); dict assignment replaces the binding in place.
* Calls into external collaborators (Gemini generation and embeddings,
  ChromaDB queries) are nondeterministic and fallible; an `Oracle` record
  supplies each call site with its outcome (`Except` value).  `uuid.uuid4()`
  draws and `time.time()` readings are likewise supplied by the oracle.
* A Python exception is an `Except.error` carrying the message together
  with the state as mutated so far.  The oracle field `raiseAt` injects an
  unexpected exception at any numbered step of the query pipeline,
  modelling the fact that any Python statement may raise.
-/

/-- The six ASCII characters matched by Python whitespace
(space, tab, newline, carriage return, vertical tab, form feed). -/
def wsChar (c : Char) : Bool :=
  c == ' ' || c == '\t' || c == '\n' || c == '\r' || c == '\x0B' || c == '\x0C'

/-- The sentence delimiters of `re.split(r'[.!?]+', ...)` in
`DocumentProcessor._split_large_paragraph`. -/
def sentDelim (c : Char) : Bool :=
  c == '.' || c == '!' || c == '?'

/-- Python `str.strip()` on a character list: drop leading and trailing
whitespace. -/
def stripL (l : List Char) : List Char :=
  ((l.dropWhile wsChar).reverse.dropWhile wsChar).reverse

/-- Python `str.strip()`. -/
def pyStrip (s : String) : String :=
  ⟨stripL s.data⟩

/-- Index of the last newline inside a character list, if any. -/
def lastNlIdx : List Char → Option Nat
  | [] => none
  | c :: cs =>
    match lastNlIdx cs with
    | some k => some (k + 1)
    | none => if c == '\n' then some 0 else none

/-- Fueled scanner for `re.split(r'\n\s*\n', text)` in
`DocumentProcessor._chunk_text`.  A match starts at a newline, greedily
consumes following whitespace, and must end at a newline (the greedy
`\s*` backtracks to the last newline inside the whitespace run).  The
fuel argument makes the recursion structural; callers pass
`length + 1` fuel, which is always sufficient. -/
def paraSplitF : Nat → List Char → List Char → List (List Char)
  | 0, acc, _ => [acc.reverse]
  | _ + 1, acc, [] => [acc.reverse]
  | fuel + 1, acc, c :: cs =>
    if c == '\n' then
      match lastNlIdx (cs.takeWhile wsChar) with
      | some k => acc.reverse :: paraSplitF fuel [] (cs.drop (k + 1))
      | none => paraSplitF fuel (c :: acc) cs
    else paraSplitF fuel (c :: acc) cs

/-- `re.split(r'\n\s*\n', text)`: the paragraph list of `_chunk_text`. -/
def paragraphsOf (text : List Char) : List (List Char) :=
  paraSplitF (text.length + 1) [] text

/-- Fueled scanner for `re.split(r'[.!?]+', paragraph)` in
`_split_large_paragraph`: pieces between maximal runs of sentence
delimiters. -/
def sentSplitF : Nat → List Char → List Char → List (List Char)
  | 0, acc, _ => [acc.reverse]
  | _ + 1, acc, [] => [acc.reverse]
  | fuel + 1, acc, c :: cs =>
    if sentDelim c then acc.reverse :: sentSplitF fuel [] (cs.dropWhile sentDelim)
    else sentSplitF fuel (c :: acc) cs

/-- The sentence list of `_split_large_paragraph`. -/
def sentencesOf (p : List Char) : List (List Char) :=
  sentSplitF (p.length + 1) [] p

/-- Loop body of `DocumentProcessor._split_large_paragraph`: greedily
accumulate stripped sentences (re-appending `". "` after each) while the
guard `len(current_chunk) + len(sentence) <= chunk_size` holds; on
overflow flush the stripped buffer. -/
def sentLoop (cs : Nat) : List (List Char) → List Char → List (List Char) → List (List Char)
  | [], cur, acc => if cur.isEmpty then acc else acc ++ [stripL cur]
  | s₀ :: rest, cur, acc =>
    let s := stripL s₀
    if s.isEmpty then sentLoop cs rest cur acc
    else if cur.length + s.length ≤ cs then
      sentLoop cs rest (cur ++ s ++ ['.', ' ']) acc
    else
      let acc' := if cur.isEmpty then acc else acc ++ [stripL cur]
      sentLoop cs rest (s ++ ['.', ' ']) acc'

/-- `DocumentProcessor._split_large_paragraph(paragraph)` (chunk size
`cs`), returning the chunk contents as character lists. -/
def split_large_paragraph (cs : Nat) (p : List Char) : List (List Char) :=
  sentLoop cs (sentencesOf p) [] []

/-- A document chunk (`DocumentChunk` dataclass); `embeddings` are
attached later and irrelevant here. -/
structure DocumentChunk where
  content : String
  doc_id : String
  page_num : Nat
  chunk_num : Nat
  source : String
  chunk_id : String
deriving DecidableEq

/-- The md5 preimage of `DocumentProcessor._generate_chunk_id`. -/
def chunkIdStr (doc_id : String) (page_num chunk_num : Nat) : String :=
  doc_id ++ "_" ++ toString page_num ++ "_" ++ toString chunk_num

/-- Build one chunk record; `h` is the md5 hex digest function, passed as
a parameter since md5 is an opaque deterministic function. -/
def mkChunk (h : String → String) (doc_id : String) (page_num chunk_num : Nat)
    (content : List Char) (source : String) : DocumentChunk :=
  ⟨⟨content⟩, doc_id, page_num, chunk_num, source, h (chunkIdStr doc_id page_num chunk_num)⟩

/-- Loop body of `DocumentProcessor._chunk_text`: greedily accumulate
stripped paragraphs (with `"\n\n"` separators) while
`len(current_chunk) + len(paragraph) <= chunk_size`; on overflow flush
the stripped buffer, and split a paragraph that alone exceeds the chunk
size into sentence chunks. -/
def paraLoop (cs : Nat) (h : String → String) (d : String) (pg : Nat) :
    List (List Char) → List Char → List DocumentChunk → List DocumentChunk
  | [], cur, acc =>
    if (stripL cur).isEmpty then acc
    else acc ++ [mkChunk h d pg acc.length (stripL cur) "paragraph_chunking"]
  | p₀ :: rest, cur, acc =>
    let p := stripL p₀
    if p.isEmpty then paraLoop cs h d pg rest cur acc
    else if cur.length + p.length ≤ cs then
      paraLoop cs h d pg rest (cur ++ p ++ ['\n', '\n']) acc
    else
      let acc₁ := if cur.isEmpty then acc
        else acc ++ [mkChunk h d pg acc.length (stripL cur) "paragraph_chunking"]
      if cs < p.length then
        let acc₂ := (split_large_paragraph cs p).foldl
          (fun a piece => a ++ [mkChunk h d pg a.length piece "sentence_chunking"]) acc₁
        paraLoop cs h d pg rest [] acc₂
      else paraLoop cs h d pg rest (p ++ ['\n', '\n']) acc₁

/-- `DocumentProcessor._chunk_text(text, doc_id, page_num)` with
configured chunk size `cs` and md5 digest function `h`. -/
def chunk_text (cs : Nat) (h : String → String) (text : String)
    (doc_id : String) (page_num : Nat) : List DocumentChunk :=
  paraLoop cs h doc_id page_num (paragraphsOf text.data) [] []

/-- Whether the text contains a blank line, i.e. an occurrence of the
paragraph-break pattern `\n\s*\n`. -/
def hasBlankAux : List Char → Bool
  | [] => false
  | c :: cs => (c == '\n' && (cs.takeWhile wsChar).any (· == '\n')) || hasBlankAux cs

/-- Whether a text contains a blank line (a `\n\s*\n` occurrence). -/
def hasBlankLine (s : String) : Bool :=
  hasBlankAux s.data

/-! ### Helper lemmas about stripping and splitting -/

/-- The first element surviving `dropWhile p` fails `p`. -/
theorem dropWhile_head_false {p : α → Bool} :
    ∀ {l : List α} {c : α} {t : List α}, l.dropWhile p = c :: t → p c = false := by
  intro l
  induction l with
  | nil => intro c t h; simp at h
  | cons x xs ih =>
    intro c t h
    rw [List.dropWhile_cons] at h
    by_cases hp : p x = true
    · rw [if_pos hp] at h; exact ih h
    · rw [if_neg hp] at h
      injection h with h1 _
      subst h1
      exact Bool.eq_false_iff.mpr hp

/-- Nonempty with a non-whitespace head. -/
def headNonWs : List Char → Prop
  | [] => False
  | c :: _ => wsChar c = false

/-- Nonempty with a non-whitespace last character. -/
def lastNonWs (l : List Char) : Prop :=
  headNonWs l.reverse

theorem headNonWs_append {l t : List Char} (h : headNonWs l) : headNonWs (l ++ t) := by
  cases l with
  | nil => exact h.elim
  | cons c cs => exact h

theorem lastNonWs_concat {l : List Char} {c : Char} (h : wsChar c = false) :
    lastNonWs (l ++ [c]) := by
  unfold lastNonWs headNonWs
  rw [List.reverse_append]
  exact h

theorem lastNonWs_append {l t : List Char} (h : lastNonWs t) : lastNonWs (l ++ t) := by
  unfold lastNonWs at *
  rw [List.reverse_append]
  exact headNonWs_append h

theorem headNonWs_ne_nil {l : List Char} (h : headNonWs l) : l ≠ [] := by
  cases l with
  | nil => exact h.elim
  | cons c cs => simp

/-- `dropWhile` over an append whose first part wholly satisfies `p`. -/
theorem dropWhile_append_all {p : α → Bool} :
    ∀ {l : List α}, (∀ c ∈ l, p c = true) → ∀ t : List α, (l ++ t).dropWhile p = t.dropWhile p := by
  intro l
  induction l with
  | nil => intro _ t; simp
  | cons x xs ih =>
    intro h t
    have hx : p x = true := h x (by simp)
    simp only [List.cons_append, List.dropWhile_cons, hx, if_true]
    exact ih (fun c hc => h c (by simp [hc])) t

/-- `dropWhile` leaves a list with a failing head untouched. -/
theorem dropWhile_head_id {p : α → Bool} {l : List α} (h : ∀ c t, l = c :: t → p c = false) :
    l.dropWhile p = l := by
  cases l with
  | nil => rfl
  | cons x xs =>
    rw [List.dropWhile_cons, if_neg]
    simp [h x xs rfl]

/-- Stripping removes a wholly-whitespace suffix from a buffer whose ends
are non-whitespace. -/
theorem stripL_append_ws {u sep : List Char} (h1 : headNonWs u) (h2 : lastNonWs u)
    (hsep : ∀ c ∈ sep, wsChar c = true) : stripL (u ++ sep) = u := by
  unfold stripL
  obtain ⟨c, t, rfl⟩ : ∃ c t, u = c :: t := by
    cases u with
    | nil => exact h1.elim
    | cons c t => exact ⟨c, t, rfl⟩
  have hhead : wsChar c = false := h1
  rw [List.cons_append, List.dropWhile_cons, if_neg (by simp [hhead])]
  rw [show (c :: (t ++ sep)) = (c :: t) ++ sep by simp, List.reverse_append]
  rw [dropWhile_append_all (fun x hx => hsep x (by simpa using hx)) _]
  rw [dropWhile_head_id]
  · simp
  · intro d r hd
    unfold lastNonWs headNonWs at h2
    rw [hd] at h2
    exact h2

/-- The head of a nonempty stripped buffer is non-whitespace. -/
theorem stripL_head {l : List Char} {c : Char} {t : List Char} (h : stripL l = c :: t) :
    wsChar c = false := by
  have hsuf : (l.dropWhile wsChar).reverse.dropWhile wsChar <:+ (l.dropWhile wsChar).reverse :=
    List.dropWhile_suffix wsChar
  have hpre : stripL l <+: l.dropWhile wsChar := by
    have h2 := List.reverse_prefix.mpr hsuf
    rwa [List.reverse_reverse] at h2
  obtain ⟨t2, ht2⟩ := hpre
  rw [h] at ht2
  exact dropWhile_head_false ht2.symm

/-- A nonempty stripped buffer has a non-whitespace head. -/
theorem stripL_headNonWs {l : List Char} (h : stripL l ≠ []) : headNonWs (stripL l) := by
  cases hc : stripL l with
  | nil => exact absurd hc h
  | cons c t =>
    show wsChar c = false
    exact stripL_head hc

/-- A nonempty stripped buffer has a non-whitespace last character. -/
theorem stripL_lastNonWs {l : List Char} (h : stripL l ≠ []) : lastNonWs (stripL l) := by
  unfold lastNonWs
  have hrev : (stripL l).reverse = (l.dropWhile wsChar).reverse.dropWhile wsChar := by
    unfold stripL; rw [List.reverse_reverse]
  rw [hrev]
  cases hc : (l.dropWhile wsChar).reverse.dropWhile wsChar with
  | nil =>
    exfalso
    apply h
    unfold stripL
    rw [hc]
    rfl
  | cons x xs =>
    show wsChar x = false
    exact dropWhile_head_false hc

/-- Characters of a stripped list come from the original list. -/
theorem mem_stripL {l : List Char} {c : Char} (h : c ∈ stripL l) : c ∈ l := by
  unfold stripL at h
  rw [List.mem_reverse] at h
  have h1 := (List.dropWhile_sublist wsChar (l := (l.dropWhile wsChar).reverse)).mem h
  rw [List.mem_reverse] at h1
  exact (List.dropWhile_sublist wsChar (l := l)).mem h1

/-! ### Claim C2: chunk content length bound -/

/-- A character list free of sentence delimiters (it cannot be split
further at sentence boundaries). -/
def noDelimL (l : List Char) : Prop :=
  ∀ c ∈ l, sentDelim c = false

/-- Pieces produced by the sentence splitter contain no delimiter. -/
theorem sentSplitF_noDelim :
    ∀ fuel acc l, noDelimL acc →
      ∀ piece ∈ sentSplitF fuel acc l, noDelimL piece := by
  intro fuel
  induction fuel with
  | zero =>
    intro acc l hacc piece hp
    simp only [sentSplitF, List.mem_singleton] at hp
    subst hp
    intro c hc
    exact hacc c (List.mem_reverse.mp hc)
  | succ n ih =>
    intro acc l hacc piece hp
    cases l with
    | nil =>
      simp only [sentSplitF, List.mem_singleton] at hp
      subst hp
      intro c hc
      exact hacc c (List.mem_reverse.mp hc)
    | cons c cs =>
      simp only [sentSplitF] at hp
      by_cases hd : sentDelim c = true
      · rw [if_pos hd] at hp
        rcases List.mem_cons.mp hp with h1 | h2
        · subst h1
          intro x hx
          exact hacc x (List.mem_reverse.mp hx)
        · exact ih [] _ (by intro x hx; simp at hx) piece h2
      · rw [if_neg hd] at hp
        refine ih (c :: acc) cs ?_ piece hp
        intro x hx
        rcases List.mem_cons.mp hx with h1 | h2
        · subst h1; exact Bool.eq_false_iff.mpr hd
        · exact hacc x h2

/-- Each sentence of a paragraph contains no delimiter. -/
theorem sentencesOf_noDelim (p : List Char) : ∀ s ∈ sentencesOf p, noDelimL s :=
  sentSplitF_noDelim _ [] p (by intro c hc; simp at hc)

/-- The amended bound on a flushed sentence piece: at most `cs + 1`
characters, or a single unsplittable sentence followed by its re-appended
period. -/
def pieceOk (cs : Nat) (v : List Char) : Prop :=
  v.length ≤ cs + 1 ∨ ∃ s, v = s ++ ['.'] ∧ cs < s.length ∧ noDelimL s

/-- Invariant of the `_split_large_paragraph` accumulation buffer. -/
def sentTail (cs : Nat) (cur : List Char) : Prop :=
  cur = [] ∨ ∃ u, cur = u ++ [' '] ∧ headNonWs u ∧ lastNonWs u ∧ pieceOk cs u

theorem stripL_sentTail {cur u : List Char} (hcur : cur = u ++ [' '])
    (h1 : headNonWs u) (h2 : lastNonWs u) : stripL cur = u := by
  rw [hcur]
  exact stripL_append_ws h1 h2 (by intro c hc; simp at hc; rw [hc]; rfl)

theorem sentLoop_ok (cs : Nat) :
    ∀ sents cur acc, (∀ s ∈ sents, noDelimL s) → sentTail cs cur →
      (∀ v ∈ acc, pieceOk cs v) → ∀ v ∈ sentLoop cs sents cur acc, pieceOk cs v := by
  intro sents
  induction sents with
  | nil =>
    intro cur acc _ hcur hacc v hv
    simp only [sentLoop] at hv
    by_cases he : cur.isEmpty
    · rw [if_pos he] at hv; exact hacc v hv
    · rw [if_neg he] at hv
      rcases hcur with rfl | ⟨u, hcu, h1, h2, hok⟩
      · simp at he
      · rw [stripL_sentTail hcu h1 h2] at hv
        rcases List.mem_append.mp hv with h | h
        · exact hacc v h
        · rw [List.mem_singleton.mp h]; exact hok
  | cons s₀ rest ih =>
    intro cur acc hnd hcur hacc v hv
    have hnd₀ : noDelimL (stripL s₀) := by
      intro c hc
      exact hnd s₀ (by simp) c (mem_stripL hc)
    have hndr : ∀ s ∈ rest, noDelimL s := fun s hs => hnd s (by simp [hs])
    simp only [sentLoop] at hv
    by_cases hse : (stripL s₀).isEmpty
    · rw [if_pos hse] at hv
      exact ih cur acc hndr hcur hacc v hv
    · rw [if_neg hse] at hv
      have hsne : stripL s₀ ≠ [] := by
        intro hc; rw [hc] at hse; simp at hse
      have hsh := stripL_headNonWs hsne
      have hsl := stripL_lastNonWs hsne
      by_cases hg : cur.length + (stripL s₀).length ≤ cs
      · rw [if_pos hg] at hv
        refine ih _ acc hndr ?_ hacc v hv
        rcases hcur with rfl | ⟨u, hcu, h1, h2, _⟩
        · right
          refine ⟨stripL s₀ ++ ['.'], by simp, headNonWs_append hsh,
            lastNonWs_concat (by rfl), ?_⟩
          left
          simp only [List.length_append, List.length_cons, List.length_nil]
          omega
        · right
          refine ⟨u ++ ([' '] ++ (stripL s₀ ++ ['.'])), by rw [hcu]; simp,
            headNonWs_append h1, lastNonWs_append (lastNonWs_append (lastNonWs_concat (by rfl))), ?_⟩
          left
          have : cur.length = u.length + 1 := by rw [hcu]; simp
          simp only [List.length_append, List.length_cons, List.length_nil]
          omega
      · rw [if_neg hg] at hv
        have hacc' : ∀ w ∈ (if cur.isEmpty then acc
            else acc ++ [stripL cur]), pieceOk cs w := by
          intro w hw
          by_cases he : cur.isEmpty
          · rw [if_pos he] at hw; exact hacc w hw
          · rw [if_neg he] at hw
            rcases hcur with rfl | ⟨u, hcu, h1, h2, hok⟩
            · simp at he
            · rw [stripL_sentTail hcu h1 h2] at hw
              rcases List.mem_append.mp hw with h | h
              · exact hacc w h
              · rw [List.mem_singleton.mp h]; exact hok
        refine ih _ _ hndr ?_ hacc' v hv
        right
        refine ⟨stripL s₀ ++ ['.'], by simp, headNonWs_append hsh,
          lastNonWs_concat (by rfl), ?_⟩
        by_cases hlen : (stripL s₀).length ≤ cs
        · left
          simp only [List.length_append, List.length_cons, List.length_nil]
          omega
        · right
          exact ⟨stripL s₀, rfl, by omega, hnd₀⟩

/-- Every piece flushed by `_split_large_paragraph` satisfies the amended
bound. -/
theorem split_large_paragraph_ok (cs : Nat) (p : List Char) :
    ∀ v ∈ split_large_paragraph cs p, pieceOk cs v :=
  sentLoop_ok cs (sentencesOf p) [] [] (sentencesOf_noDelim p) (Or.inl rfl)
    (by intro v hv; simp at hv)

/-- The amended bound on a produced chunk: content at most `cs + 1`
characters, unless it is a single unsplittable sentence with its
re-appended period. -/
def chunkOk (cs : Nat) (c : DocumentChunk) : Prop :=
  c.content.length ≤ cs + 1 ∨
    ∃ s, c.content.data = s ++ ['.'] ∧ cs < s.length ∧ noDelimL s

/-- Invariant of the `_chunk_text` paragraph accumulation buffer. -/
def paraTail (cs : Nat) (cur : List Char) : Prop :=
  cur = [] ∨ ∃ u, cur = u ++ ['\n', '\n'] ∧ headNonWs u ∧ lastNonWs u ∧ u.length ≤ cs

theorem stripL_paraTail {cur u : List Char} (hcur : cur = u ++ ['\n', '\n'])
    (h1 : headNonWs u) (h2 : lastNonWs u) : stripL cur = u := by
  rw [hcur]
  refine stripL_append_ws h1 h2 ?_
  intro c hc
  rcases List.mem_cons.mp hc with h | h
  · rw [h]; rfl
  · rw [List.mem_singleton.mp h]; rfl

theorem sentFold_ok {cs : Nat} {h : String → String} {d : String} {pg : Nat} :
    ∀ (pieces : List (List Char)) (acc : List DocumentChunk),
      (∀ c ∈ acc, chunkOk cs c) → (∀ v ∈ pieces, pieceOk cs v) →
      ∀ c ∈ List.foldl
        (fun a piece => a ++ [mkChunk h d pg a.length piece "sentence_chunking"]) acc pieces,
        chunkOk cs c := by
  intro pieces
  induction pieces with
  | nil => intro acc hacc _ c hc; exact hacc c hc
  | cons p ps ih =>
    intro acc hacc hp c hc
    simp only [List.foldl_cons] at hc
    refine ih _ ?_ (fun v hv => hp v (by simp [hv])) c hc
    intro w hw
    rcases List.mem_append.mp hw with h1 | h1
    · exact hacc w h1
    · rw [List.mem_singleton.mp h1]
      have := hp p (by simp)
      rcases this with hl | ⟨s, hs, hlt, hnd⟩
      · left; exact hl
      · right; exact ⟨s, hs, hlt, hnd⟩

theorem paraLoop_ok (cs : Nat) (h : String → String) (d : String) (pg : Nat) :
    ∀ paras cur acc, paraTail cs cur → (∀ c ∈ acc, chunkOk cs c) →
      ∀ c ∈ paraLoop cs h d pg paras cur acc, chunkOk cs c := by
  intro paras
  induction paras with
  | nil =>
    intro cur acc hcur hacc c hc
    simp only [paraLoop] at hc
    by_cases he : (stripL cur).isEmpty
    · rw [if_pos he] at hc; exact hacc c hc
    · rw [if_neg he] at hc
      rcases hcur with rfl | ⟨u, hcu, h1, h2, hlen⟩
      · simp [stripL] at he
      · rcases List.mem_append.mp hc with hm | hm
        · exact hacc c hm
        · rw [List.mem_singleton.mp hm]
          left
          show (String.mk (stripL cur)).length ≤ cs + 1
          rw [stripL_paraTail hcu h1 h2]
          show u.length ≤ cs + 1
          omega
  | cons p₀ rest ih =>
    intro cur acc hcur hacc c hc
    simp only [paraLoop] at hc
    by_cases hpe : (stripL p₀).isEmpty
    · rw [if_pos hpe] at hc
      exact ih cur acc hcur hacc c hc
    · rw [if_neg hpe] at hc
      have hpne : stripL p₀ ≠ [] := by
        intro hx; rw [hx] at hpe; simp at hpe
      have hph := stripL_headNonWs hpne
      have hpl := stripL_lastNonWs hpne
      by_cases hg : cur.length + (stripL p₀).length ≤ cs
      · rw [if_pos hg] at hc
        refine ih _ acc ?_ hacc c hc
        rcases hcur with rfl | ⟨u, hcu, h1, h2, hlen⟩
        · right
          exact ⟨stripL p₀, by simp, hph, hpl, by simpa using hg⟩
        · right
          refine ⟨u ++ (['\n', '\n'] ++ stripL p₀), by rw [hcu]; simp,
            headNonWs_append h1, lastNonWs_append (lastNonWs_append hpl), ?_⟩
          have : cur.length = u.length + 2 := by rw [hcu]; simp
          simp only [List.length_append, List.length_cons, List.length_nil]
          omega
      · rw [if_neg hg] at hc
        have hacc₁ : ∀ w ∈ (if cur.isEmpty then acc
            else acc ++ [mkChunk h d pg acc.length (stripL cur) "paragraph_chunking"]),
            chunkOk cs w := by
          intro w hw
          by_cases he : cur.isEmpty
          · rw [if_pos he] at hw; exact hacc w hw
          · rw [if_neg he] at hw
            rcases hcur with rfl | ⟨u, hcu, h1, h2, hlen⟩
            · simp at he
            · rcases List.mem_append.mp hw with hm | hm
              · exact hacc w hm
              · rw [List.mem_singleton.mp hm]
                left
                show (String.mk (stripL cur)).length ≤ cs + 1
                rw [stripL_paraTail hcu h1 h2]
                show u.length ≤ cs + 1
                omega
        by_cases hbig : cs < (stripL p₀).length
        · rw [if_pos hbig] at hc
          refine ih [] _ (Or.inl rfl) ?_ c hc
          exact sentFold_ok _ _ hacc₁ (split_large_paragraph_ok cs (stripL p₀))
        · rw [if_neg hbig] at hc
          refine ih _ _ ?_ hacc₁ c hc
          right
          exact ⟨stripL p₀, by simp, hph, hpl, by omega⟩

/-- Claim C2 (amended): every chunk produced by `_chunk_text` has content
of length at most `chunk_size + 1` (the splitter re-appends a `". "`
separator after each sentence, and the final strip leaves one such
period, so a flushed multi-sentence chunk can exceed the configured size
by exactly one character); the sole exception is a chunk consisting of a
single sentence that cannot be split further (no sentence delimiter
inside), stored as that sentence followed by its re-appended period. -/
theorem chunk_text_length_bound (cs : Nat) (h : String → String) (text doc_id : String)
    (page_num : Nat) :
    ∀ c ∈ chunk_text cs h text doc_id page_num,
      c.content.length ≤ cs + 1 ∨
        ∃ s, c.content.data = s ++ ['.'] ∧ cs < s.length ∧ noDelimL s := by
  intro c hc
  exact paraLoop_ok cs h doc_id page_num (paragraphsOf text.data) [] [] (Or.inl rfl)
    (by intro x hx; simp at hx) c hc

/-! ### Claim C8: chunking a text with no blank lines -/

theorem lastNlIdx_none_of_any {l : List Char} (h : l.any (· == '\n') = false) :
    lastNlIdx l = none := by
  induction l with
  | nil => rfl
  | cons c cs ih =>
    simp only [List.any_cons, Bool.or_eq_false_iff] at h
    simp [lastNlIdx, ih h.2, h.1]

theorem paraSplitF_no_blank :
    ∀ fuel (l acc : List Char), l.length < fuel → hasBlankAux l = false →
      paraSplitF fuel acc l = [acc.reverse ++ l] := by
  intro fuel
  induction fuel with
  | zero => intro l acc hl _; omega
  | succ n ih =>
    intro l acc hl hb
    cases l with
    | nil => simp [paraSplitF]
    | cons c cs =>
      simp only [hasBlankAux, Bool.or_eq_false_iff, Bool.and_eq_false_iff] at hb
      obtain ⟨hb1, hb2⟩ := hb
      simp only [paraSplitF]
      by_cases hcn : (c == '\n') = true
      · rw [if_pos hcn]
        have hnone : lastNlIdx (cs.takeWhile wsChar) = none := by
          rcases hb1 with h | h
          · rw [hcn] at h; cases h
          · exact lastNlIdx_none_of_any h
        rw [hnone]
        rw [ih cs (c :: acc) (by simpa using hl) hb2]
        simp
      · rw [if_neg hcn]
        rw [ih cs (c :: acc) (by simpa using hl) hb2]
        simp

/-- A text with no blank line is a single paragraph for `re.split`. -/
theorem paragraphsOf_no_blank {text : String} (h : hasBlankLine text = false) :
    paragraphsOf text.data = [text.data] := by
  unfold paragraphsOf
  rw [paraSplitF_no_blank (text.data.length + 1) text.data [] (by omega) h]
  simp

theorem sentFold_contents {h : String → String} {d : String} {pg : Nat} :
    ∀ (pieces : List (List Char)) (acc : List DocumentChunk),
      (List.foldl (fun a piece => a ++ [mkChunk h d pg a.length piece "sentence_chunking"])
          acc pieces).map (·.content) =
        acc.map (·.content) ++ pieces.map (fun v => (⟨v⟩ : String)) := by
  intro pieces
  induction pieces with
  | nil => intro acc; simp
  | cons p ps ih =>
    intro acc
    simp only [List.foldl_cons, List.map_cons]
    rw [ih]
    simp [mkChunk]

theorem sentFold_sources {h : String → String} {d : String} {pg : Nat} :
    ∀ (pieces : List (List Char)) (acc : List DocumentChunk),
      (∀ c ∈ acc, c.source = "sentence_chunking") →
      ∀ c ∈ List.foldl
          (fun a piece => a ++ [mkChunk h d pg a.length piece "sentence_chunking"]) acc pieces,
        c.source = "sentence_chunking" := by
  intro pieces
  induction pieces with
  | nil => intro acc hacc c hc; exact hacc c hc
  | cons p ps ih =>
    intro acc hacc c hc
    simp only [List.foldl_cons] at hc
    refine ih _ ?_ c hc
    intro w hw
    rcases List.mem_append.mp hw with h1 | h1
    · exact hacc w h1
    · rw [List.mem_singleton.mp h1]; rfl

/-- Claim C8 (amended): for a text with no blank lines whose stripped
form is nonempty, `_chunk_text` produces exactly one paragraph chunk
(containing the stripped text) when the stripped length is at most the
chunk size, and otherwise produces exactly the sentence-boundary pieces
of `_split_large_paragraph`, each tagged `sentence_chunking`.  (The
original claim fails for whitespace-only input, which produces zero
chunks, and compares the unstripped length, which mislabels texts whose
length only exceeds the bound by surrounding whitespace.) -/
theorem chunk_text_no_blank (cs : Nat) (h : String → String) (doc_id : String) (pg : Nat)
    (text : String) (hnb : hasBlankLine text = false) (hne : stripL text.data ≠ []) :
    if (stripL text.data).length ≤ cs then
      chunk_text cs h text doc_id pg =
        [⟨⟨stripL text.data⟩, doc_id, pg, 0, "paragraph_chunking", h (chunkIdStr doc_id pg 0)⟩]
    else
      (chunk_text cs h text doc_id pg).map (·.content) =
          (split_large_paragraph cs (stripL text.data)).map (fun v => (⟨v⟩ : String)) ∧
        ∀ c ∈ chunk_text cs h text doc_id pg, c.source = "sentence_chunking" := by
  have hph := stripL_headNonWs hne
  have hpl := stripL_lastNonWs hne
  unfold chunk_text
  rw [paragraphsOf_no_blank hnb]
  by_cases hlen : (stripL text.data).length ≤ cs
  · rw [if_pos hlen]
    simp only [paraLoop]
    rw [if_neg (by simpa [List.isEmpty_iff] using hne),
      if_pos (by simpa using hlen)]
    have hstrip : stripL ([] ++ stripL text.data ++ ['\n', '\n']) = stripL text.data := by
      rw [List.nil_append]
      exact stripL_append_ws hph hpl (by
        intro c hc
        rcases List.mem_cons.mp hc with h1 | h1
        · rw [h1]; rfl
        · rw [List.mem_singleton.mp h1]; rfl)
    simp only [paraLoop, hstrip]
    rw [if_neg (by simpa [List.isEmpty_iff] using hne)]
    simp [mkChunk]
  · rw [if_neg hlen]
    simp only [paraLoop]
    rw [if_neg (by simpa [List.isEmpty_iff] using hne),
      if_neg (by simpa using hlen)]
    have hbig : cs < (stripL text.data).length := by omega
    rw [if_pos hbig]
    simp only [show stripL ([] : List Char) = [] from rfl, List.isEmpty_nil, if_true,
      List.nil_append]
    constructor
    · rw [sentFold_contents]
      simp
    · intro c hc
      exact sentFold_sources _ _ (by intro w hw; simp at hw) c hc

/-- A 1001-character paragraph consisting of a 500-character sentence and
a 498-character sentence. -/
def c2Text : String :=
  ⟨List.replicate 500 'a' ++ '.' :: ' ' :: List.replicate 498 'b' ++ ['.']⟩

set_option maxRecDepth 100000 in
/-- Claim C2 counterexample: at the default chunk size 1000, the text
`c2Text` (no blank lines, two sentences of 500 and 498 characters)
produces a single chunk of length 1001 > 1000 that contains an internal
sentence delimiter, i.e. it is not a single sentence that cannot be
split further.  The guard of `_split_large_paragraph` counts the
accumulated buffer plus the bare sentence, but then appends the sentence
together with a two-character `". "` separator, and the final `strip`
removes only the trailing space. -/
theorem chunk_size_bound_counterexample :
    ¬ (∀ c ∈ chunk_text 1000 (fun s => s) c2Text "doc" 1,
        c.content.length ≤ 1000 ∨ ∀ ch ∈ c.content.data.dropLast, sentDelim ch = false) := by
  decide

/-- Witness for claim C2: the bound theorem applied to the single chunk
produced from the ten-character input `"hello."` at chunk size 10. -/
theorem chunk_text_length_bound_witness :
    (⟨"hello.", "d", 1, 0, "paragraph_chunking", "d_1_0"⟩ : DocumentChunk).content.length ≤ 10 + 1 ∨
      ∃ s, (⟨"hello.", "d", 1, 0, "paragraph_chunking", "d_1_0"⟩ : DocumentChunk).content.data =
          s ++ ['.'] ∧ 10 < s.length ∧ noDelimL s :=
  chunk_text_length_bound 10 (fun s => s) "hello." "d" 1
    ⟨"hello.", "d", 1, 0, "paragraph_chunking", "d_1_0"⟩ (by decide)

/-- Claim C8 counterexample: (a) the whitespace-only text `" "` has no
blank lines and length at most the chunk size, yet produces zero chunks
rather than exactly one (whitespace-only paragraphs are skipped); (b)
the text `" a "` has length 3 above the chunk size 2, yet produces one
paragraph chunk instead of sentence-boundary splits, because the
paragraph is stripped to `"a"` before the length comparison. -/
theorem chunk_single_counterexample :
    (chunk_text 10 (fun s => s) " " "d" 1 = [] ∧ hasBlankLine " " = false ∧
      (" " : String).length ≤ 10) ∧
    (chunk_text 2 (fun s => s) " a " "d" 1 =
        [⟨"a", "d", 1, 0, "paragraph_chunking", "d_1_0"⟩] ∧ hasBlankLine " a " = false ∧
      2 < (" a " : String).length ∧
      ∀ c ∈ chunk_text 2 (fun s => s) " a " "d" 1, c.source = "paragraph_chunking") := by
  decide

/-- Witness for claim C8: the amended theorem applied to the input
`"hello."` at chunk size 10 (no blank lines, stripped form nonempty). -/
theorem chunk_text_no_blank_witness :
    if (stripL (" hello." : String).data).length ≤ 10 then
      chunk_text 10 (fun s => s) " hello." "d" 1 =
        [⟨⟨stripL (" hello." : String).data⟩, "d", 1, 0, "paragraph_chunking",
          (fun s => s) (chunkIdStr "d" 1 0)⟩]
    else
      (chunk_text 10 (fun s => s) " hello." "d" 1).map (·.content) =
          (split_large_paragraph 10 (stripL (" hello." : String).data)).map
            (fun v => (⟨v⟩ : String)) ∧
        ∀ c ∈ chunk_text 10 (fun s => s) " hello." "d" 1, c.source = "sentence_chunking" :=
  chunk_text_no_blank 10 (fun s => s) "d" 1 " hello." (by decide) (by decide)

/-! ### Memory system (`src/memory_system.py`) -/

/-- Association-list lookup, modelling a Python dict read. -/
def alookup {β : Type} (k : String) : List (String × β) → Option β
  | [] => none
  | (k', v) :: rest => if k = k' then some v else alookup k rest

/-- Association-list update, modelling Python dict assignment: replace
the binding if present, else append it. -/
def aupdate {β : Type} (k : String) (v : β) : List (String × β) → List (String × β)
  | [] => [(k, v)]
  | (k', v') :: rest => if k = k' then (k, v) :: rest else (k', v') :: aupdate k v rest

theorem alookup_aupdate {β : Type} (k : String) (v : β) :
    ∀ l : List (String × β), alookup k (aupdate k v l) = some v := by
  intro l
  induction l with
  | nil => simp [alookup, aupdate]
  | cons p rest ih =>
    obtain ⟨k', v'⟩ := p
    by_cases hk : k = k'
    · simp [alookup, aupdate, hk]
    · simp only [aupdate, if_neg hk, alookup, if_neg hk]
      exact ih

/-- Python list slicing `lst[-k:]`.  Note the edge case: `lst[-0:]` is
`lst[0:]`, the whole list, not the empty suffix. -/
def pyTail {α : Type} (k : Nat) (l : List α) : List α :=
  if k = 0 then l else l.drop (l.length - k)

/-- The `content` dict of a short-term `MemoryItem`: query, answer and
the optional feedback reference (an interaction id in the pipeline). -/
structure CtxItem where
  query : String
  answer : String
  feedback : Option String
deriving DecidableEq

/-- A short-term `MemoryItem` (dataclass `MemoryItem`); the `metadata`
dict holds the owning session id. -/
structure MemoryItem where
  content : CtxItem
  timestamp : ℚ
  memory_type : String
  session_id : String
deriving DecidableEq

/-- The mutable state of `MemorySystem`: the configured capacity, the
per-session dict and the global recency list. -/
structure MemoryState where
  short_term_size : Nat
  sessions : List (String × List MemoryItem)
  short_term_memory : List MemoryItem
deriving DecidableEq

/-- A fresh `MemorySystem(vector_db, short_term_size)`. -/
def initMemory (short_term_size : Nat) : MemoryState :=
  ⟨short_term_size, [], []⟩

/-- `MemorySystem.add_to_short_term_memory(session_id, query, answer,
feedback)`; `now` is the `time.time()` reading. -/
def add_to_short_term_memory (m : MemoryState) (session_id query answer : String)
    (feedback : Option String) (now : ℚ) : MemoryState :=
  let item : MemoryItem := ⟨⟨query, answer, feedback⟩, now, "short_term", session_id⟩
  let lst := ((alookup session_id m.sessions).getD []) ++ [item]
  let lst := if m.short_term_size < lst.length then pyTail m.short_term_size lst else lst
  let stm := m.short_term_memory ++ [item]
  let stm := if m.short_term_size < stm.length then pyTail m.short_term_size stm else stm
  { m with sessions := aupdate session_id lst m.sessions, short_term_memory := stm }

/-- `MemorySystem.get_short_term_context(session_id)`. -/
def get_short_term_context (m : MemoryState) (session_id : String) : List CtxItem :=
  match alookup session_id m.sessions with
  | none => []
  | some l => (pyTail m.short_term_size l).map (·.content)

/-- One append request (arguments of one `add_to_short_term_memory`
call). -/
structure AppendReq where
  query : String
  answer : String
  feedback : Option String
  now : ℚ
deriving DecidableEq

/-- A sequence of appends to one session. -/
def appendAll (m : MemoryState) (session_id : String) (reqs : List AppendReq) : MemoryState :=
  reqs.foldl (fun m r => add_to_short_term_memory m session_id r.query r.answer r.feedback r.now) m

/-- The memory item an append request creates. -/
def reqItem (session_id : String) (r : AppendReq) : MemoryItem :=
  ⟨⟨r.query, r.answer, r.feedback⟩, r.now, "short_term", session_id⟩

theorem appendAll_session (sid : String) :
    ∀ (reqs : List AppendReq) (m : MemoryState), 1 ≤ m.short_term_size →
      ∀ cur : List MemoryItem, (alookup sid m.sessions).getD [] = cur →
        cur.length ≤ m.short_term_size →
        (alookup sid (appendAll m sid reqs).sessions).getD [] =
            (cur ++ reqs.map (reqItem sid)).drop
              ((cur.length + reqs.length) - m.short_term_size) ∧
          (appendAll m sid reqs).short_term_size = m.short_term_size := by
  intro reqs
  induction reqs with
  | nil =>
    intro m hsz cur hcur hlen
    constructor
    · simp only [appendAll, List.foldl_nil, List.map_nil, List.append_nil, List.length_nil,
        Nat.add_zero]
      rw [hcur, Nat.sub_eq_zero_of_le hlen, List.drop_zero]
    · rfl
  | cons r rs ih =>
    intro m hsz cur hcur hlen
    have hstep : appendAll m sid (r :: rs) =
        appendAll (add_to_short_term_memory m sid r.query r.answer r.feedback r.now) sid rs := by
      simp [appendAll]
    set m' := add_to_short_term_memory m sid r.query r.answer r.feedback r.now with hm'
    have hsize' : m'.short_term_size = m.short_term_size := rfl
    have hitem : reqItem sid r = ⟨⟨r.query, r.answer, r.feedback⟩, r.now, "short_term", sid⟩ := rfl
    by_cases hfull : cur.length + 1 ≤ m.short_term_size
    · -- the trim does not fire
      have hlst : (alookup sid m'.sessions).getD [] = cur ++ [reqItem sid r] := by
        rw [hm']
        unfold add_to_short_term_memory
        simp only [alookup_aupdate, Option.getD_some, hcur]
        rw [if_neg (by simp [hcur]; omega)]
        rw [hitem]
      obtain ⟨h1, h2⟩ := ih m' (by rw [hsize']; exact hsz) (cur ++ [reqItem sid r]) hlst
        (by simp [hsize']; omega)
      rw [hstep]
      constructor
      · rw [h1, hsize']
        simp only [List.map_cons, List.length_append, List.length_cons, List.length_nil,
          List.append_assoc, List.cons_append, List.nil_append, List.length_map]
        have : cur.length + 1 + rs.length = cur.length + (rs.length + 1) := by omega
        rw [this]
      · rw [h2, hsize']
    · -- the buffer was full: the trim drops the oldest item
      have hcl : cur.length = m.short_term_size := by omega
      have hlst : (alookup sid m'.sessions).getD [] = (cur ++ [reqItem sid r]).drop 1 := by
        rw [hm']
        unfold add_to_short_term_memory
        simp only [alookup_aupdate, Option.getD_some, hcur]
        rw [if_pos (by simp [hcur]; omega)]
        rw [hitem]
        unfold pyTail
        rw [if_neg (by omega)]
        simp only [List.length_append, List.length_cons, List.length_nil]
        congr 1
        omega
      obtain ⟨h1, h2⟩ := ih m' (by rw [hsize']; exact hsz) ((cur ++ [reqItem sid r]).drop 1) hlst
        (by simp [hsize']; omega)
      rw [hstep]
      constructor
      · rw [h1, hsize']
        have hdl : ((cur ++ [reqItem sid r]).drop 1).length = m.short_term_size := by
          simp only [List.length_drop, List.length_append, List.length_cons, List.length_nil]
          omega
        rw [hdl]
        have hsub : m.short_term_size + rs.length - m.short_term_size = rs.length := by omega
        rw [hsub]
        have hone : 1 ≤ (cur ++ [reqItem sid r]).length := by simp
        rw [← List.drop_append_of_le_length hone]
        rw [List.drop_drop]
        simp only [List.map_cons, List.length_cons, List.append_assoc, List.cons_append,
          List.nil_append]
        congr 1
        omega
      · rw [h2, hsize']

/-- Claim C5 (amended): for any positive configured capacity, after a
sequence of appends to a fresh session, `get_short_term_context` returns
exactly the last `capacity` appended items (all of them when there are
at most `capacity`), as `{query, answer, feedback}` records in insertion
order with the most recent last.  (The original claim fails only at
capacity 0, where the Python slice `lst[-0:]` returns the whole list.) -/
theorem short_term_last_capacity (size : Nat) (hsz : 1 ≤ size) (sid : String)
    (reqs : List AppendReq) :
    get_short_term_context (appendAll (initMemory size) sid reqs) sid =
      (reqs.map fun r => (⟨r.query, r.answer, r.feedback⟩ : CtxItem)).drop
        (reqs.length - size) := by
  obtain ⟨h1, h2⟩ := appendAll_session sid reqs (initMemory size) hsz [] (by rfl) (by simp)
  have h1' : (alookup sid (appendAll (initMemory size) sid reqs).sessions).getD [] =
      (reqs.map (reqItem sid)).drop (reqs.length - size) := by
    simpa [initMemory] using h1
  have h2' : (appendAll (initMemory size) sid reqs).short_term_size = size := h2
  have hmapdrop :
      ((reqs.map (reqItem sid)).drop (reqs.length - size)).map (·.content) =
        (reqs.map fun r => (⟨r.query, r.answer, r.feedback⟩ : CtxItem)).drop
          (reqs.length - size) := by
    rw [List.map_drop]
    congr 1
    rw [List.map_map]
    rfl
  unfold get_short_term_context
  cases halo : alookup sid (appendAll (initMemory size) sid reqs).sessions with
  | none =>
    rw [halo] at h1'
    simp only [Option.getD_none] at h1'
    dsimp only
    rw [← hmapdrop, ← h1']
    rfl
  | some l =>
    rw [halo] at h1'
    simp only [Option.getD_some] at h1'
    dsimp only
    have hlen : l.length ≤ size := by
      rw [h1']
      simp only [List.length_drop, List.length_map]
      omega
    have htail : pyTail (appendAll (initMemory size) sid reqs).short_term_size l = l := by
      unfold pyTail
      rw [h2']
      rw [if_neg (by omega), Nat.sub_eq_zero_of_le hlen, List.drop_zero]
    rw [htail, h1', hmapdrop]

/-- Claim C5 counterexample: at configured capacity 0, one append to a
fresh session followed by `get_short_term_context` returns that one item
instead of the last zero items, because the Python slice `lst[-0:]`
returns the whole list. -/
theorem short_term_zero_capacity_counterexample :
    get_short_term_context (add_to_short_term_memory (initMemory 0) "s" "q" "a" none 0) "s" =
        [⟨"q", "a", none⟩] ∧
      get_short_term_context (add_to_short_term_memory (initMemory 0) "s" "q" "a" none 0) "s" ≠
        [] := by
  decide

/-- Witness for claim C5: three appends at capacity 2 return the last
two items in order. -/
theorem short_term_last_capacity_witness :
    get_short_term_context (appendAll (initMemory 2) "s"
        [⟨"q1", "a1", none, 0⟩, ⟨"q2", "a2", none, 0⟩, ⟨"q3", "a3", none, 0⟩]) "s" =
      ([⟨"q1", "a1", none, 0⟩, ⟨"q2", "a2", none, 0⟩,
          (⟨"q3", "a3", none, 0⟩ : AppendReq)].map
        fun r => (⟨r.query, r.answer, r.feedback⟩ : CtxItem)).drop
        ([⟨"q1", "a1", none, 0⟩, ⟨"q2", "a2", none, 0⟩,
          (⟨"q3", "a3", none, 0⟩ : AppendReq)].length - 2) :=
  short_term_last_capacity 2 (by decide) "s"
    [⟨"q1", "a1", none, 0⟩, ⟨"q2", "a2", none, 0⟩, ⟨"q3", "a3", none, 0⟩]

/-! ### Long-term memory (`store_qa_pair` / `add_to_long_term_memory`) -/

/-- A persisted Q&A pair (metadata record of the `qa_pairs` collection in
`VectorDatabase.store_qa_pair`). -/
structure QAPairRec where
  id : String
  question : String
  answer : String
  topic : String
  confidence : ℚ
  usage_count : Nat
  timestamp : String
deriving DecidableEq

/-- `VectorDatabase.store_qa_pair(question, answer, topic, confidence)`:
append a record with a fresh uuid id, usage count 1 and a uuid
"timestamp"; a storage failure (`fail = some e`) is caught and logged,
leaving the collection unchanged. -/
def store_qa_pair (qa_pairs : List QAPairRec) (question answer topic : String)
    (confidence : ℚ) (qaUuid qaTsUuid : String) (fail : Option String) : List QAPairRec :=
  match fail with
  | some _ => qa_pairs
  | none => qa_pairs ++ [⟨qaUuid, question, answer, topic, confidence, 1, qaTsUuid⟩]

/-- `MemorySystem.add_to_long_term_memory(question, answer, topic,
confidence)`: calls `store_qa_pair` unconditionally (its try/except only
swallows storage errors); there is no confidence-threshold check here. -/
def add_to_long_term_memory (qa_pairs : List QAPairRec) (question answer topic : String)
    (confidence : ℚ) (qaUuid qaTsUuid : String) (fail : Option String) : List QAPairRec :=
  store_qa_pair qa_pairs question answer topic confidence qaUuid qaTsUuid fail

/-- Claim C3 counterexample: `add_to_long_term_memory` applies no
threshold: called directly with confidence 1/10 (not above 0.8) it still
creates a QAPair carrying confidence 1/10. -/
theorem add_to_long_term_memory_no_threshold :
    add_to_long_term_memory [] "q" "a" "general" (1/10) "u" "ts" none =
        [⟨"u", "q", "a", "general", 1/10, 1, "ts"⟩] ∧
      ¬ ((8 : ℚ)/10 < 1/10) := by
  constructor
  · rfl
  · norm_num

/-! ### Claim C4: confidence score (`QAEngine._calculate_confidence`) -/

/-- A retrieved chunk as returned by
`VectorDatabase.search_similar_chunks`: content, metadata record,
distance and id. -/
structure RetrievedChunk where
  content : String
  metadata : List (String × String)
  distance : ℚ
  id : String
deriving DecidableEq

/-- `QAEngine._calculate_confidence(answer, chunks)`. -/
def calculate_confidence (answer : String) (chunks : List RetrievedChunk) : ℚ :=
  if chunks.isEmpty then 0
  else
    let base_confidence := min ((answer.length : ℚ) / 100) 1
    let avg_distance := (chunks.map (·.distance)).sum / (chunks.length : ℚ)
    let distance_confidence := max 0 (1 - avg_distance)
    (base_confidence + distance_confidence) / 2

/-- Claim C4: for non-negative retrieval distances, the confidence is
the average of `min(len(answer)/100, 1)` and `max(0, 1 - avg_distance)`,
lies in `[0, 1]`, and is exactly 0 for an empty chunk list regardless of
the answer. -/
theorem calculate_confidence_bounds (answer : String) (chunks : List RetrievedChunk)
    (hd : ∀ c ∈ chunks, 0 ≤ c.distance) :
    (chunks ≠ [] → calculate_confidence answer chunks =
        (min ((answer.length : ℚ) / 100) 1 +
          max 0 (1 - (chunks.map (·.distance)).sum / (chunks.length : ℚ))) / 2) ∧
      0 ≤ calculate_confidence answer chunks ∧ calculate_confidence answer chunks ≤ 1 ∧
      (chunks = [] → calculate_confidence answer chunks = 0) := by
  by_cases he : chunks = []
  · subst he
    refine ⟨by intro h; exact absurd rfl h, by norm_num [calculate_confidence], ?_, fun _ => rfl⟩
    norm_num [calculate_confidence]
  · have hne : chunks.isEmpty = false := by simpa [List.isEmpty_iff] using he
    have hval : calculate_confidence answer chunks =
        (min ((answer.length : ℚ) / 100) 1 +
          max 0 (1 - (chunks.map (·.distance)).sum / (chunks.length : ℚ))) / 2 := by
      unfold calculate_confidence
      rw [hne]
      simp
    have hbase0 : (0 : ℚ) ≤ min ((answer.length : ℚ) / 100) 1 := by
      apply le_min
      · positivity
      · norm_num
    have hbase1 : min ((answer.length : ℚ) / 100) 1 ≤ 1 := min_le_right _ _
    have hdist0 : (0 : ℚ) ≤ max 0 (1 - (chunks.map (·.distance)).sum / (chunks.length : ℚ)) :=
      le_max_left _ _
    have hsum : (0 : ℚ) ≤ (chunks.map (·.distance)).sum := by
      apply List.sum_nonneg
      intro x hx
      obtain ⟨c, hc, rfl⟩ := List.mem_map.mp hx
      exact hd c hc
    have hlenpos : (0 : ℚ) < (chunks.length : ℚ) := by
      have : 0 < chunks.length := List.length_pos.mpr he
      exact_mod_cast this
    have havg : (0 : ℚ) ≤ (chunks.map (·.distance)).sum / (chunks.length : ℚ) :=
      div_nonneg hsum (le_of_lt hlenpos)
    have hdist1 : max 0 (1 - (chunks.map (·.distance)).sum / (chunks.length : ℚ)) ≤ 1 := by
      apply max_le
      · norm_num
      · linarith
    refine ⟨fun _ => hval, ?_, ?_, fun h => absurd h he⟩
    · rw [hval]; linarith
    · rw [hval]; linarith

/-- Witness for claim C4: one chunk at distance 1/2 and the answer
`"hi"`. -/
theorem calculate_confidence_bounds_witness :
    (([⟨"c", [], 1/2, "i"⟩] : List RetrievedChunk) ≠ [] →
        calculate_confidence "hi" [⟨"c", [], 1/2, "i"⟩] =
          (min ((("hi" : String).length : ℚ) / 100) 1 +
            max 0 (1 - (([⟨"c", [], 1/2, "i"⟩] : List RetrievedChunk).map
              (·.distance)).sum / ((([⟨"c", [], 1/2, "i"⟩] : List RetrievedChunk).length : ℚ)))) / 2) ∧
      0 ≤ calculate_confidence "hi" [⟨"c", [], 1/2, "i"⟩] ∧
      calculate_confidence "hi" [⟨"c", [], 1/2, "i"⟩] ≤ 1 ∧
      (([⟨"c", [], 1/2, "i"⟩] : List RetrievedChunk) = [] →
        calculate_confidence "hi" [⟨"c", [], 1/2, "i"⟩] = 0) :=
  calculate_confidence_bounds "hi" [⟨"c", [], 1/2, "i"⟩]
    (by intro c hc; rw [List.mem_singleton.mp hc]; norm_num)

/-! ### Vector database interactions (`src/vector_db.py`) -/

/-- A persisted user interaction (metadata record of the
`user_interactions` collection).  Note the `timestamp` field: the source
stores `str(uuid.uuid4())` there, a random uuid string, not a time
value. -/
structure InteractionRec where
  id : String
  session_id : String
  query : String
  answer : String
  timestamp : String
  feedback : Option String
deriving DecidableEq

/-- `VectorDatabase.store_user_interaction(session_id, query, answer,
feedback)`.  `idUuid` and `tsUuid` are the two `uuid.uuid4()` draws (the
second is stored as the `timestamp`); on a storage failure the except
branch returns a third fresh uuid and stores nothing. -/
def store_user_interaction (interactions : List InteractionRec)
    (session_id query answer : String) (feedback : Option String)
    (idUuid tsUuid fallbackUuid : String) (fail : Option String) :
    List InteractionRec × String :=
  match fail with
  | some _ => (interactions, fallbackUuid)
  | none => (interactions ++ [⟨idUuid, session_id, query, answer, tsUuid, feedback⟩], idUuid)

/-- One record of the history list built by
`VectorDatabase.get_conversation_history`. -/
structure HistItem where
  query : String
  answer : String
  timestamp : String
  feedback : Option String
deriving DecidableEq

/-- Lexicographic string order by code points, the comparison Python
`sorted` uses on the `timestamp` strings. -/
def lexLe : List Char → List Char → Bool
  | [], _ => true
  | _ :: _, [] => false
  | a :: as, b :: bs =>
    if a.toNat < b.toNat then true
    else if b.toNat < a.toNat then false
    else lexLe as bs

/-- Stable insertion used to model Python `sorted` (Timsort is stable):
insert after all elements less than or equal. -/
def insStable {α : Type} (le : α → α → Bool) (x : α) : List α → List α
  | [] => [x]
  | y :: ys => if le y x then y :: insStable le x ys else x :: y :: ys

/-- Python `sorted(l, key=...)`: a stable sort. -/
def pySorted {α : Type} (le : α → α → Bool) (l : List α) : List α :=
  l.foldl (fun acc x => insStable le x acc) []

/-- `VectorDatabase.get_conversation_history(session_id, limit)`: filter
the interactions of the session (up to `limit` records), project each to
a history dict, and sort by the stored `timestamp` string. -/
def get_conversation_history (interactions : List InteractionRec) (session_id : String)
    (limit : Nat) : List HistItem :=
  pySorted (fun x y => lexLe x.timestamp.data y.timestamp.data)
    (((interactions.filter (·.session_id == session_id)).take limit).map
      (fun r => ⟨r.query, r.answer, r.timestamp, r.feedback⟩))

/-- Claim C10: the persisted `timestamp` is the freshly drawn uuid
string (here the draws are `"zz"` then `"aa"`), and
`get_conversation_history` sorts by that string, so two interactions
stored in the order `q1`, `q2` come back as `q2`, `q1` — not in
chronological (insertion) order. -/
theorem conversation_history_not_chronological :
    (store_user_interaction [] "s" "q1" "a1" none "id1" "zz" "fb" none).1 =
        [⟨"id1", "s", "q1", "a1", "zz", none⟩] ∧
      ((store_user_interaction
          (store_user_interaction [] "s" "q1" "a1" none "id1" "zz" "fb" none).1
          "s" "q2" "a2" none "id2" "aa" "fb2" none).1.map (·.query) = ["q1", "q2"] ∧
        get_conversation_history
            (store_user_interaction
              (store_user_interaction [] "s" "q1" "a1" none "id1" "zz" "fb" none).1
              "s" "q2" "a2" none "id2" "aa" "fb2" none).1 "s" 20 =
          [⟨"q2", "a2", "aa", none⟩, ⟨"q1", "a1", "zz", none⟩] ∧
        (["q2", "q1"] : List String) ≠ ["q1", "q2"]) := by
  decide

/-! ### Learning pipeline (`src/learning_pipeline.py`) -/

/-- A feedback record (metadata of the `feedback_data` collection,
written by `VectorDatabase.store_feedback`).  `feedback_data` is the
payload dict; ratings are read from its `"rating"` key with default 0. -/
structure FeedbackRec where
  id : String
  interaction_id : String
  feedback_type : String
  feedback_data : List (String × Int)
  corrected_answer : Option String
  timestamp : String
deriving DecidableEq

/-- Python truthiness of the `corrected_answer` metadata value:
a non-`None`, non-empty string. -/
def truthyOpt : Option String → Bool
  | none => false
  | some s => !(s == "")

/-- One entry of the corrections list built by
`process_feedback_batch`. -/
structure CorrectionOut where
  interaction_id : String
  original_query : String
  corrected_answer : String
  timestamp : String
deriving DecidableEq

/-- One entry of the ratings list built by `process_feedback_batch`. -/
structure RatingOut where
  interaction_id : String
  rating : Int
  timestamp : String
deriving DecidableEq

/-- `LearningPipeline._get_original_query(interaction_id)`: the query of
the interaction record, or `""` when absent (or on a store error). -/
def get_original_query (interactions : List InteractionRec) (interaction_id : String) : String :=
  match interactions.find? (·.id == interaction_id) with
  | some r => r.query
  | none => ""

/-- The corrections partition: records of type `correction` with truthy
corrected text, in batch order. -/
def correctionsOf (interactions : List InteractionRec) (batch : List FeedbackRec) :
    List CorrectionOut :=
  (batch.filter (fun r => r.feedback_type == "correction" && truthyOpt r.corrected_answer)).map
    (fun r => ⟨r.interaction_id, get_original_query interactions r.interaction_id,
      r.corrected_answer.getD "", r.timestamp⟩)

/-- The ratings partition: records of type `rating`, in batch order,
with the rating read from `feedback_data.get('rating', 0)`. -/
def ratingsOf (batch : List FeedbackRec) : List RatingOut :=
  (batch.filter (fun r => r.feedback_type == "rating")).map
    (fun r => ⟨r.interaction_id, (alookup "rating" r.feedback_data).getD 0, r.timestamp⟩)

/-- A file written by the learning pipeline to the feedback storage
directory; the timestamp string is the `datetime.now()` stamp in the
file name. -/
inductive Artifact where
  | corrections (ts : String) (items : List CorrectionOut)
  | ratingPatterns (ts : String) (high_rated_count low_rated_count : Nat)
      (high_examples low_examples : List RatingOut)
  | archive (ts : String) (raw : List FeedbackRec)
deriving DecidableEq

/-- `LearningPipeline.process_feedback_batch()`.  `batch` is the feedback
set read at the start of the run, `live` the live store at deletion time
(it may have grown since the read), `ts` the timestamp used in artifact
names.  Returns the written artifacts in order, the ids passed to the
final delete, and the live store after the delete.  The corrections
artifact is written only `if corrections:` and the rating-pattern
artifact only `if ratings:`; the raw archive is always written, then the
ids that were read are deleted. -/
def process_feedback_batch (interactions : List InteractionRec)
    (batch live : List FeedbackRec) (ts : String) :
    List Artifact × List String × List FeedbackRec :=
  let corrections := correctionsOf interactions batch
  let ratings := ratingsOf batch
  let high_rated := ratings.filter (fun r => 4 ≤ r.rating)
  let low_rated := ratings.filter (fun r => r.rating ≤ 2)
  let artifacts :=
    (if corrections.isEmpty then [] else [Artifact.corrections ts corrections]) ++
    (if ratings.isEmpty then [] else
      [Artifact.ratingPatterns ts high_rated.length low_rated.length
        (high_rated.take 5) (low_rated.take 5)]) ++
    [Artifact.archive ts batch]
  let ids := batch.map (·.id)
  (artifacts, ids, live.filter (fun r => !(ids.contains r.id)))

/-- Claim C7 (amended): one run of `process_feedback_batch` partitions
the batch it read into corrections (type `correction` with non-empty
corrected text) and ratings, archives the full raw batch, deletes from
the live store exactly the record ids it read — and writes the
timestamped corrections artifact only when at least one correction
exists, and the timestamped rating-pattern summary (ratings of at least
4 counted high, at most 2 counted low, at most 5 sampled examples each)
only when at least one rating exists. -/
theorem process_feedback_batch_spec (interactions : List InteractionRec)
    (batch live : List FeedbackRec) (ts : String) :
    (process_feedback_batch interactions batch live ts).2.1 = batch.map (·.id) ∧
      (∀ rec ∈ live, rec ∈ (process_feedback_batch interactions batch live ts).2.2 ↔
        rec.id ∉ batch.map (·.id)) ∧
      Artifact.archive ts batch ∈ (process_feedback_batch interactions batch live ts).1 ∧
      ((∃ l, Artifact.corrections ts l ∈ (process_feedback_batch interactions batch live ts).1) ↔
        correctionsOf interactions batch ≠ []) ∧
      (∀ l, Artifact.corrections ts l ∈ (process_feedback_batch interactions batch live ts).1 →
        l = correctionsOf interactions batch) ∧
      ((∃ hc lc hs ls, Artifact.ratingPatterns ts hc lc hs ls ∈
          (process_feedback_batch interactions batch live ts).1) ↔ ratingsOf batch ≠ []) ∧
      (∀ hc lc hs ls, Artifact.ratingPatterns ts hc lc hs ls ∈
          (process_feedback_batch interactions batch live ts).1 →
        hs.length ≤ 5 ∧ ls.length ≤ 5 ∧ (∀ x ∈ hs, 4 ≤ x.rating) ∧ (∀ x ∈ ls, x.rating ≤ 2) ∧
          hc = ((ratingsOf batch).filter (fun r => 4 ≤ r.rating)).length ∧
          lc = ((ratingsOf batch).filter (fun r => r.rating ≤ 2)).length) := by
  unfold process_feedback_batch
  refine ⟨rfl, ?_, ?_, ?_, ?_, ?_, ?_⟩
  · intro rec hrec
    simp only [List.mem_filter, Bool.not_eq_eq_eq_not, Bool.not_true]
    constructor
    · intro ⟨_, hc⟩ hmem
      rw [List.contains_eq_any_beq] at hc
      simp only [List.any_eq_false] at hc
      exact absurd (by simp : (rec.id == rec.id) = true) (hc rec.id hmem)
    · intro hmem
      refine ⟨hrec, ?_⟩
      rw [List.contains_eq_any_beq]
      simp only [List.any_eq_false]
      intro x hx
      by_cases hxe : rec.id = x
      · exact absurd (hxe ▸ hx) hmem
      · simp [hxe]
  · simp
  · constructor
    · rintro ⟨l, hl⟩
      simp only [List.mem_append] at hl
      rcases hl with (hl | hl) | hl
      · intro hc
        rw [hc] at hl
        simp at hl
      · by_cases hr : (ratingsOf batch).isEmpty <;> simp [hr] at hl
      · simp at hl
    · intro hne
      refine ⟨correctionsOf interactions batch, ?_⟩
      simp [List.isEmpty_iff, hne]
  · intro l hl
    simp only [List.mem_append] at hl
    rcases hl with (hl | hl) | hl
    · by_cases hc : (correctionsOf interactions batch).isEmpty
      · simp [hc] at hl
      · simp only [hc, Bool.false_eq_true, if_false, List.mem_singleton] at hl
        cases hl
        rfl
    · by_cases hr : (ratingsOf batch).isEmpty <;> simp [hr] at hl
    · simp at hl
  · constructor
    · rintro ⟨hc, lc, hs, ls, hl⟩
      simp only [List.mem_append] at hl
      rcases hl with (hl | hl) | hl
      · by_cases hco : (correctionsOf interactions batch).isEmpty <;> simp [hco] at hl
      · intro hr
        rw [show ratingsOf batch = [] from hr] at hl
        simp at hl
      · simp at hl
    · intro hne
      refine ⟨((ratingsOf batch).filter (fun r => 4 ≤ r.rating)).length,
        ((ratingsOf batch).filter (fun r => r.rating ≤ 2)).length,
        ((ratingsOf batch).filter (fun r => 4 ≤ r.rating)).take 5,
        ((ratingsOf batch).filter (fun r => r.rating ≤ 2)).take 5, ?_⟩
      simp [List.isEmpty_iff, hne]
  · intro hc lc hs ls hl
    simp only [List.mem_append] at hl
    rcases hl with (hl | hl) | hl
    · by_cases hco : (correctionsOf interactions batch).isEmpty <;> simp [hco] at hl
    · by_cases hr : (ratingsOf batch).isEmpty
      · simp [hr] at hl
      · simp only [hr, Bool.false_eq_true, if_false, List.mem_singleton] at hl
        injection hl with h1 h2 h3 h4 h5
        subst h2; subst h3; subst h4; subst h5
        refine ⟨List.length_take_le 5 _, List.length_take_le 5 _,
          ?_, ?_, rfl, rfl⟩
        · intro x hx
          have hmem := List.mem_of_mem_take hx
          exact of_decide_eq_true (List.mem_filter.mp hmem).2
        · intro x hx
          have hmem := List.mem_of_mem_take hx
          exact of_decide_eq_true (List.mem_filter.mp hmem).2
    · simp at hl

/-- Claim C7 counterexample: a batch holding a single rating record
produces only the rating-pattern artifact and the raw archive — no
corrections artifact is written for that run, contradicting the claim
that every run writes both artifacts. -/
theorem process_feedback_batch_counterexample :
    (process_feedback_batch [] [⟨"f1", "i1", "rating", [("rating", 5)], none, "t0"⟩]
        [⟨"f1", "i1", "rating", [("rating", 5)], none, "t0"⟩] "ts").1 =
      [Artifact.ratingPatterns "ts" 1 0 [⟨"i1", 5, "t0"⟩] [],
        Artifact.archive "ts" [⟨"f1", "i1", "rating", [("rating", 5)], none, "t0"⟩]] := by
  decide

/-! ### Query pipeline (`src/qa_engine.py`) -/

/-- A stored Q&A pair as viewed by
`MemorySystem.search_long_term_memory`. -/
structure QAView where
  question : String
  answer : String
  topic : String
  confidence : ℚ
  usage_count : Nat
deriving DecidableEq

/-- The result dict returned by `QAEngine.process_query`.  The happy
path carries `interaction_id` and no `error` key; the except branch
carries `error` and no `interaction_id` key — both are `Option`s here. -/
structure QueryResult where
  answer : String
  confidence : ℚ
  sources : List (List (String × String))
  similar_qa : List QAView
  processing_time : ℚ
  interaction_id : Option String
  error : Option String
deriving DecidableEq

/-- The full mutable state the pipeline touches: the query cache of the
engine, the memory system, and the `user_interactions` and `qa_pairs`
collections of the vector store. -/
structure SysState where
  qa_cache : List (String × QueryResult)
  memory : MemoryState
  interactions : List InteractionRec
  qa_pairs : List QAPairRec
deriving DecidableEq

/-- Outcomes of every external call and nondeterministic draw one
`process_query` run makes.  `raiseAt k` injects an unexpected exception
at step `k` of the pipeline (any Python statement may raise); the other
fields give each collaborator call its result. -/
structure Oracle where
  raiseAt : Nat → Option String
  expandResp : Except String String
  embedResp : Except String (List ℚ)
  searchResp : Except String (List RetrievedChunk)
  ltmResp : Except String (List QAView)
  answerResp : Except String String
  interactionFail : Option String
  interactionUuid : String
  interactionTsUuid : String
  interactionFallbackUuid : String
  qaFail : Option String
  qaUuid : String
  qaTsUuid : String
  itemTime : ℚ
  elapsedOk : ℚ
  elapsedErr : ℚ

/-- `QAEngine._expand_query(query, session_id)`: with empty short-term
context the query passes through; otherwise the reformulation call runs
(the prompt built from the last three exchanges is consumed by the
model, represented by the oracle); a failure or falsy response text
falls back to the query, a non-empty text is stripped. -/
def expand_query (o : Oracle) (m : MemoryState) (query session_id : String) : String :=
  let context := get_short_term_context m session_id
  if context.isEmpty then query
  else
    match o.expandResp with
    | .error _ => query
    | .ok t => if t = "" then query else pyStrip t

/-- `EmbeddingService.generate_embeddings([expanded_query])[0]`: the
per-text try/except substitutes a 768-dimensional zero vector on
failure, so the call always yields one embedding. -/
def generate_embeddings_single (o : Oracle) (text : String) : List ℚ :=
  match o.embedResp with
  | .ok v => v
  | .error _ => List.replicate 768 0

/-- `VectorDatabase.search_similar_chunks`: the internal try/except
returns `[]` on a store failure. -/
def search_similar_chunks (o : Oracle) (n_results : Nat)
    (filters : Option (List (String × String))) : List RetrievedChunk :=
  match o.searchResp with
  | .ok l => l
  | .error _ => []

/-- `MemorySystem.search_long_term_memory`: the internal try/except
returns `[]` on failure; the metadata-filter `get` result comes from the
oracle. -/
def search_long_term_memory (o : Oracle) (query : String) : List QAView :=
  match o.ltmResp with
  | .ok l => l
  | .error _ => []

/-- Numbered `[Source N]` lines of `_prepare_context`. -/
def sourceLines : Nat → List RetrievedChunk → List String
  | _, [] => []
  | i, c :: rest => ("[Source " ++ toString i ++ "]: " ++ c.content) :: sourceLines (i + 1) rest

/-- `QAEngine._prepare_context(chunks, similar_qa, session_id)`:
document chunks first, then similar Q&A pairs, then the last two
short-term exchanges, joined by newlines. -/
def prepare_context (chunks : List RetrievedChunk) (similar_qa : List QAView)
    (m : MemoryState) (session_id : String) : String :=
  let parts₁ : List String :=
    if chunks.isEmpty then [] else "Relevant Document Content:" :: sourceLines 1 chunks
  let parts₂ : List String :=
    if similar_qa.isEmpty then []
    else "\nRelated Previous Questions and Answers:" ::
      (similar_qa.foldr (fun qa acc => ("Q: " ++ qa.question) :: ("A: " ++ qa.answer) :: acc) [])
  let ctx := get_short_term_context m session_id
  let parts₃ : List String :=
    if ctx.isEmpty then []
    else "\nRecent Conversation:" ::
      ((pyTail 2 ctx).foldr
        (fun item acc => ("User: " ++ item.query) :: ("Assistant: " ++ item.answer) :: acc) [])
  String.intercalate "\n" (parts₁ ++ parts₂ ++ parts₃)

/-- `QAEngine._generate_answer`: the model call (prompt built from query
and context) is represented by the oracle; a failure yields the apology
string, a falsy response text the fixed placeholder. -/
def generate_answer (o : Oracle) : String :=
  match o.answerResp with
  | .error _ => "I apologize, but I\x27m having trouble generating an answer right now."
  | .ok t => if t = "" then "I cannot generate an answer at the moment." else t

/-- Lowercase a string character by character (Python `str.lower` for
the ASCII topics involved). -/
def lowerStr (s : String) : String :=
  ⟨s.data.map Char.toLower⟩

/-- Substring scan: Python `pat in s`. -/
def scanSub (pat : List Char) : List Char → Bool
  | [] => pat.isEmpty
  | c :: rest => pat.isPrefixOf (c :: rest) || scanSub pat rest

/-- `QAEngine._extract_topic(query)`: first topic of the closed list
contained in the lowercased query, else `"general"`. -/
def extract_topic (query : String) : String :=
  let topics := ["technology", "science", "history", "business", "health", "education"]
  match topics.find? (fun t => scanSub t.data (lowerStr query).data) with
  | some t => t
  | none => "general"

/-- `QAEngine._generate_cache_key(query, session_id)`: the md5 hex
digest (an opaque deterministic function `md5hex`) of
`f"{query}_{session_id}"`. -/
def generate_cache_key (md5hex : String → String) (query session_id : String) : String :=
  md5hex (query ++ "_" ++ session_id)

/-- The degraded response of the `process_query` except branch. -/
def error_result (e : String) (o : Oracle) : QueryResult :=
  { answer := "I apologize, but I encountered an error processing your query. Please try again.",
    confidence := 0, sources := [], similar_qa := [],
    processing_time := o.elapsedErr, interaction_id := none, error := some e }

/-- The body of `QAEngine.process_query` after the cache check, i.e. the
code guarded by the surrounding try/except: steps 1-11 in source order,
threading the mutated state; an `Except.error` carries the exception
message and the state mutated so far. -/
def process_query_body (md5hex : String → String) (st : SysState) (o : Oracle)
    (query session_id : String) (document_filters : Option (List (String × String))) :
    Except (String × SysState) (QueryResult × SysState) :=
  match o.raiseAt 1 with
  | some e => .error (e, st)
  | none =>
  let expanded_query := expand_query o st.memory query session_id
  match o.raiseAt 2 with
  | some e => .error (e, st)
  | none =>
  let query_embedding := generate_embeddings_single o expanded_query
  match o.raiseAt 3 with
  | some e => .error (e, st)
  | none =>
  let relevant_chunks := search_similar_chunks o 5 document_filters
  match o.raiseAt 4 with
  | some e => .error (e, st)
  | none =>
  let similar_qa := search_long_term_memory o query
  match o.raiseAt 5 with
  | some e => .error (e, st)
  | none =>
  let _context := prepare_context relevant_chunks similar_qa st.memory session_id
  match o.raiseAt 6 with
  | some e => .error (e, st)
  | none =>
  let answer := generate_answer o
  match o.raiseAt 7 with
  | some e => .error (e, st)
  | none =>
  let si := store_user_interaction st.interactions session_id query answer none
    o.interactionUuid o.interactionTsUuid o.interactionFallbackUuid o.interactionFail
  let st := { st with interactions := si.1 }
  let interaction_id := si.2
  match o.raiseAt 8 with
  | some e => .error (e, st)
  | none =>
  let mem' :=
    add_to_short_term_memory st.memory session_id query answer (some interaction_id) o.itemTime
  let st := { st with memory := mem' }
  match o.raiseAt 9 with
  | some e => .error (e, st)
  | none =>
  let confidence := calculate_confidence answer relevant_chunks
  match o.raiseAt 10 with
  | some e => .error (e, st)
  | none =>
  let result : QueryResult :=
    { answer := answer, confidence := confidence,
      sources := relevant_chunks.map (·.metadata), similar_qa := similar_qa,
      processing_time := o.elapsedOk, interaction_id := some interaction_id, error := none }
  let cache' := aupdate (generate_cache_key md5hex query session_id) result st.qa_cache
  let st := { st with qa_cache := cache' }
  match o.raiseAt 11 with
  | some e => .error (e, st)
  | none =>
  let qa' :=
    add_to_long_term_memory st.qa_pairs query answer (extract_topic query) confidence
      o.qaUuid o.qaTsUuid o.qaFail
  let st := if (8 : ℚ)/10 < confidence then { st with qa_pairs := qa' } else st
  .ok (result, st)

/-- `QAEngine.process_query(query, session_id, document_filters)`: cache
check first (verbatim return of the cached dict on a hit), then the
guarded body; any exception from the body is converted to the degraded
`error_result`. -/
def process_query (md5hex : String → String) (st : SysState) (o : Oracle)
    (query session_id : String) (document_filters : Option (List (String × String))) :
    QueryResult × SysState :=
  match alookup (generate_cache_key md5hex query session_id) st.qa_cache with
  | some cached => (cached, st)
  | none =>
    match process_query_body md5hex st o query session_id document_filters with
    | .ok (r, st') => (r, st')
    | .error (e, st') => (error_result e o, st')

/-- Whether a `process_query` call takes the except branch: a cache miss
followed by a body run that raises. -/
def enters_error_branch (md5hex : String → String) (st : SysState) (o : Oracle)
    (query session_id : String) (document_filters : Option (List (String × String))) : Bool :=
  match alookup (generate_cache_key md5hex query session_id) st.qa_cache with
  | some _ => false
  | none =>
    match process_query_body md5hex st o query session_id document_filters with
    | .ok _ => false
    | .error _ => true

/-- Structure of a successful body run: the returned dict has no error
key, the final state caches it under the run's cache key, and the
`qa_pairs` collection is extended exactly by the conditional promotion
of step 11. -/
theorem process_query_body_ok_eq {md5hex : String → String} {st : SysState} {o : Oracle}
    {query session_id : String} {f : Option (List (String × String))}
    {r : QueryResult} {st' : SysState}
    (h : process_query_body md5hex st o query session_id f = .ok (r, st')) :
    r.error = none ∧
      alookup (generate_cache_key md5hex query session_id) st'.qa_cache = some r ∧
      (¬ ((8 : ℚ)/10 < r.confidence) → st'.qa_pairs = st.qa_pairs) ∧
      ((8 : ℚ)/10 < r.confidence → st'.qa_pairs =
        add_to_long_term_memory st.qa_pairs query r.answer (extract_topic query) r.confidence
          o.qaUuid o.qaTsUuid o.qaFail) := by
  simp only [process_query_body] at h
  repeat'
    first
    | exact Except.noConfusion h
    | split at h
  all_goals
    simp only [Except.ok.injEq, Prod.mk.injEq] at h
    obtain ⟨hr, hst⟩ := h
    subst hr
    subst hst
    refine ⟨rfl, alookup_aupdate _ _ _, ?_, ?_⟩
    · intro hn
      first
      | rfl
      | exact absurd (by assumption) hn
    · intro hc
      first
      | rfl
      | exact absurd hc (by assumption)

/-- Claim C1: `process_query` is a total function of its inputs — it
never propagates an exception: it returns the cached dict on a hit, the
happy-path dict (which has no error entry) when the guarded body
completes, and otherwise the degraded response with the fixed apology
text, confidence 0, empty sources and similar-Q&A lists, and the error
detail, at whatever state the failed body left behind. -/
theorem process_query_never_raises (md5hex : String → String) (st : SysState) (o : Oracle)
    (query session_id : String) (f : Option (List (String × String))) :
    (∃ cached, alookup (generate_cache_key md5hex query session_id) st.qa_cache = some cached ∧
        process_query md5hex st o query session_id f = (cached, st)) ∨
      (∃ r st', process_query_body md5hex st o query session_id f = .ok (r, st') ∧
        process_query md5hex st o query session_id f = (r, st') ∧ r.error = none) ∨
      (∃ e st', process_query_body md5hex st o query session_id f = .error (e, st') ∧
        (process_query md5hex st o query session_id f).2 = st' ∧
        (process_query md5hex st o query session_id f).1.answer =
          "I apologize, but I encountered an error processing your query. Please try again." ∧
        (process_query md5hex st o query session_id f).1.confidence = 0 ∧
        (process_query md5hex st o query session_id f).1.sources = [] ∧
        (process_query md5hex st o query session_id f).1.similar_qa = [] ∧
        (process_query md5hex st o query session_id f).1.error = some e) := by
  cases halo : alookup (generate_cache_key md5hex query session_id) st.qa_cache with
  | some cached =>
    left
    refine ⟨cached, rfl, ?_⟩
    unfold process_query
    rw [halo]
  | none =>
    cases hb : process_query_body md5hex st o query session_id f with
    | ok p =>
      obtain ⟨r, st'⟩ := p
      right; left
      refine ⟨r, st', rfl, ?_, (process_query_body_ok_eq hb).1⟩
      unfold process_query
      rw [halo, hb]
    | error p =>
      obtain ⟨e, st'⟩ := p
      right; right
      refine ⟨e, st', rfl, ?_⟩
      unfold process_query
      rw [halo, hb]
      exact ⟨rfl, rfl, rfl, rfl, rfl, rfl⟩

/-- Claim C6: when a `process_query` call for `(query, session_id)` did
not take the except branch, a second sequential call with the same pair
(any oracle outcomes, any document filters) returns the first call's
result dict verbatim — identical `processing_time` included — and
leaves the state unchanged. -/
theorem cached_result_verbatim (md5hex : String → String) (st : SysState) (o o₂ : Oracle)
    (query session_id : String) (f f₂ : Option (List (String × String)))
    (r : QueryResult) (st' : SysState)
    (h1 : process_query md5hex st o query session_id f = (r, st'))
    (h2 : enters_error_branch md5hex st o query session_id f = false) :
    process_query md5hex st' o₂ query session_id f₂ = (r, st') := by
  unfold process_query at h1
  unfold enters_error_branch at h2
  cases halo : alookup (generate_cache_key md5hex query session_id) st.qa_cache with
  | some cached =>
    rw [halo] at h1
    obtain ⟨hr, hst⟩ : cached = r ∧ st = st' := by simpa using h1
    subst hr
    subst hst
    unfold process_query
    rw [halo]
  | none =>
    rw [halo] at h1 h2
    cases hb : process_query_body md5hex st o query session_id f with
    | ok p =>
      obtain ⟨r₀, st₀⟩ := p
      rw [hb] at h1
      obtain ⟨hr, hst⟩ : r₀ = r ∧ st₀ = st' := by simpa using h1
      subst hr
      subst hst
      have hcache := (process_query_body_ok_eq hb).2.1
      unfold process_query
      rw [hcache]
    | error p =>
      rw [hb] at h2
      simp at h2

/-- Claim C9: the cache key is the digest of `query + "_" + session_id`,
which is not injective: the distinct pairs `("a_b", "c")` and
`("a", "b_c")` share the joined string `"a_b_c"`, hence the same cache
key, so a query from session `"b_c"` is answered verbatim with the
result cached for the different query `"a_b"` of the different session
`"c"`. -/
theorem cache_key_collision (md5hex : String → String) (st : SysState) (o : Oracle)
    (f : Option (List (String × String))) (r : QueryResult)
    (hc : alookup (generate_cache_key md5hex "a_b" "c") st.qa_cache = some r) :
    (("a_b", "c") ≠ (("a", "b_c") : String × String)) ∧
      generate_cache_key md5hex "a_b" "c" = generate_cache_key md5hex "a" "b_c" ∧
      process_query md5hex st o "a" "b_c" f = (r, st) := by
  have hkey : generate_cache_key md5hex "a" "b_c" = generate_cache_key md5hex "a_b" "c" := by
    unfold generate_cache_key
    exact congrArg md5hex (by decide)
  refine ⟨by decide, hkey.symm, ?_⟩
  unfold process_query
  rw [hkey, hc]

/-- Claim C3 (amended): a successful pipeline run leaves `qa_pairs`
unchanged when its computed confidence is at most 0.8; every pair it
adds carries exactly the run's confidence, which then exceeds 0.8; and
when confidence exceeds 0.8 and the store call succeeds, exactly one
pair (the run's query, generated answer, extracted topic and confidence)
is appended.  `add_to_long_term_memory` itself checks no threshold (see
the counterexample), so the threshold holds only for pipeline-created
pairs. -/
theorem promotion_threshold (md5hex : String → String) (st : SysState) (o : Oracle)
    (query session_id : String) (f : Option (List (String × String)))
    (r : QueryResult) (st' : SysState)
    (h : process_query_body md5hex st o query session_id f = .ok (r, st')) :
    (r.confidence ≤ 8/10 → st'.qa_pairs = st.qa_pairs) ∧
      (∀ p ∈ st'.qa_pairs, p ∈ st.qa_pairs ∨
        ((8 : ℚ)/10 < r.confidence ∧ p.confidence = r.confidence)) ∧
      ((8 : ℚ)/10 < r.confidence → o.qaFail = none → st'.qa_pairs =
        st.qa_pairs ++
          [⟨o.qaUuid, query, r.answer, extract_topic query, r.confidence, 1, o.qaTsUuid⟩]) := by
  obtain ⟨_, _, hno, hyes⟩ := process_query_body_ok_eq h
  refine ⟨?_, ?_, ?_⟩
  · intro hle
    exact hno (not_lt.mpr hle)
  · intro p hp
    by_cases hcond : (8 : ℚ)/10 < r.confidence
    · rw [hyes hcond] at hp
      unfold add_to_long_term_memory store_qa_pair at hp
      cases hfail : o.qaFail with
      | some e =>
        rw [hfail] at hp
        left
        exact hp
      | none =>
        rw [hfail] at hp
        simp only [List.mem_append, List.mem_singleton] at hp
        rcases hp with h1 | h1
        · left; exact h1
        · right
          exact ⟨hcond, by rw [h1]⟩
    · rw [hno hcond] at hp
      left
      exact hp
  · intro hcond hfail
    rw [hyes hcond]
    unfold add_to_long_term_memory store_qa_pair
    rw [hfail]

/-- Decidable equality for `Except`, needed to evaluate concrete body
runs. -/
instance {ε α : Type} [DecidableEq ε] [DecidableEq α] : DecidableEq (Except ε α) := fun x y =>
  match x, y with
  | .ok a, .ok b =>
    if h : a = b then .isTrue (congrArg Except.ok h)
    else .isFalse (fun hc => h (Except.ok.inj hc))
  | .error a, .error b =>
    if h : a = b then .isTrue (congrArg Except.error h)
    else .isFalse (fun hc => h (Except.error.inj hc))
  | .ok _, .error _ => .isFalse (fun hc => Except.noConfusion hc)
  | .error _, .ok _ => .isFalse (fun hc => Except.noConfusion hc)

/-- An identity stand-in for the md5 hex digest in concrete runs. -/
def md5id : String → String := fun s => s

/-- A concrete oracle: no injected exceptions, empty retrieval, answer
`"ans"`, all stores succeed. -/
def qaOracle : Oracle :=
  ⟨fun _ => none, .ok "", .ok [], .ok [], .ok [], .ok "ans", none, "i1", "t1", "fb1",
    none, "qa1", "qt1", 0, 1, 2⟩

/-- The fresh system state (empty cache, fresh memory of capacity 20,
empty collections). -/
def sysState0 : SysState := ⟨[], initMemory 20, [], []⟩

/-- The memory item the concrete run appends. -/
def memItem0 : MemoryItem := ⟨⟨"q", "ans", some "i1"⟩, 0, "short_term", "s"⟩

/-- The result dict of the concrete run. -/
def result0 : QueryResult := ⟨"ans", 0, [], [], 1, some "i1", none⟩

/-- The state after the concrete run. -/
def sysState1 : SysState :=
  ⟨[("q_s", result0)], ⟨20, [("s", [memItem0])], [memItem0]⟩,
    [⟨"i1", "s", "q", "ans", "t1", none⟩], []⟩

unseal Rat.add Rat.mul Rat.inv Rat.sub in
/-- Witness for claim C6: a concrete first run (cache miss, no error
branch) followed by a second identical `(query, session_id)` call that
returns the cached dict verbatim. -/
theorem cached_result_verbatim_witness :
    process_query md5id sysState1 qaOracle "q" "s" none = (result0, sysState1) :=
  cached_result_verbatim md5id sysState0 qaOracle qaOracle "q" "s" none none result0 sysState1
    (by decide) (by decide)

/-- A cached result for the colliding key `"a_b_c"`. -/
def collResult : QueryResult := ⟨"A", 0, [], [], 0, none, none⟩

/-- A state whose cache holds `collResult` under the key the pair
`("a_b", "c")` hashes to. -/
def collState : SysState := ⟨[("a_b_c", collResult)], initMemory 20, [], []⟩

/-- Witness for claim C9: with the identity digest, the query `"a"` in
session `"b_c"` is served the result cached for query `"a_b"` in
session `"c"`. -/
theorem cache_key_collision_witness :
    (("a_b", "c") ≠ (("a", "b_c") : String × String)) ∧
      generate_cache_key md5id "a_b" "c" = generate_cache_key md5id "a" "b_c" ∧
      process_query md5id collState qaOracle "a" "b_c" none = (collResult, collState) :=
  cache_key_collision md5id collState qaOracle none collResult (by decide)

/-- An 80-character answer, giving confidence 9/10 with one retrieved
chunk at distance 0. -/
def highAnswer : String := ⟨List.replicate 80 'x'⟩

/-- Oracle for a high-confidence run: one chunk at distance 0 and the
80-character answer. -/
def highOracle : Oracle :=
  { qaOracle with searchResp := .ok [⟨"c", [], 0, "cid"⟩], answerResp := .ok highAnswer }

/-- The memory item of the high-confidence run. -/
def highItem : MemoryItem := ⟨⟨"q", highAnswer, some "i1"⟩, 0, "short_term", "s"⟩

/-- The result dict of the high-confidence run. -/
def highResult : QueryResult := ⟨highAnswer, 9/10, [[]], [], 1, some "i1", none⟩

/-- The state after the high-confidence run: the answer was promoted to
`qa_pairs` with confidence 9/10. -/
def highState : SysState :=
  ⟨[("q_s", highResult)], ⟨20, [("s", [highItem])], [highItem]⟩,
    [⟨"i1", "s", "q", highAnswer, "t1", none⟩],
    [⟨"qa1", "q", highAnswer, "general", 9/10, 1, "qt1"⟩]⟩

unseal Rat.add Rat.mul Rat.inv Rat.sub in
/-- Witness for claim C3: a concrete run with confidence 9/10 > 0.8
appends exactly one QAPair carrying that confidence. -/
theorem promotion_threshold_witness :
    (highResult.confidence ≤ 8/10 → highState.qa_pairs = sysState0.qa_pairs) ∧
      (∀ p ∈ highState.qa_pairs, p ∈ sysState0.qa_pairs ∨
        ((8 : ℚ)/10 < highResult.confidence ∧ p.confidence = highResult.confidence)) ∧
      ((8 : ℚ)/10 < highResult.confidence → highOracle.qaFail = none → highState.qa_pairs =
        sysState0.qa_pairs ++
          [⟨highOracle.qaUuid, "q", highResult.answer, extract_topic "q",
            highResult.confidence, 1, highOracle.qaTsUuid⟩]) :=
  promotion_threshold md5id sysState0 highOracle "q" "s" none highResult highState (by decide)
